/-
Verification of the grid-emulation repository's data pipeline (grids.py)
and training loop (autoencoder_jax/autoencoder.py).

The Python source works over numpy/jax float arrays.  The embedding models
array values as rational numbers (`ℚ`) and arrays as lists; the two
irrational primitives used by the pipeline, base-10 logarithm (applied to
spectra) and square root (inside the standard deviation), are passed in as
explicit function parameters `log10 sq : ℚ → ℚ`: every claim under study
depends only on the algebraic structure of the pipeline, never on the
numeric value of a logarithm or a square root, so all theorems below are
proved for an arbitrary choice of these functions (and concrete witnesses
instantiate them with finite tables that agree with the real functions on
the points used).  Floating-point rounding is not modelled; round-trip laws
that hold "within floating-point tolerance" in the source hold exactly
over `ℚ`.
-/
import Mathlib

namespace GridEmu

/-- Arithmetic mean of a list of rationals (numpy `mean`: sum / length). -/
def listMean (l : List ℚ) : ℚ := l.sum / (l.length : ℚ)

/-- Population variance of a list (numpy `std` squares to this: ddof = 0). -/
def listVar (l : List ℚ) : ℚ := listMean (l.map (fun x => (x - listMean l) ^ 2))

/-!  ## grids.py : LHGridSpectra

`LHGridSpectra` asks the external synthesizer library for per-particle
spectra `spec.lnu` (one row per sample) on the grid wavelengths `grid.lam`,
then filters both by the mask `(lam > 1000) & (lam < 10000)`.  The external
synthesis itself is a black box; its outputs `lam` (wavelength array) and
`lnu` (one spectrum row per sample) are inputs of the embedding, and the
filtering — the code under verification — is modelled exactly. -/

/-- The wavelength window predicate of the mask `(lam > 1000) & (lam < 10000)`. -/
def inWindow (w : ℚ) : Bool := decide (1000 < w) && decide (w < 10000)

/-- `grid.lam[mask]`: the retained wavelengths. -/
def filteredWavelength (lam : List ℚ) : List ℚ := lam.filter inWindow

/-- `spec.lnu[:, mask]` for one row: keep the entries whose wavelength is
in the window. -/
def filterRow (lam row : List ℚ) : List ℚ :=
  ((row.zip lam).filter (fun p => inWindow p.2)).map Prod.fst

/-- Result tuple of `LHGridSpectra`: (spectra, wavelength, ages, metallicities). -/
structure GridSample where
  spectra : List (List ℚ)
  wavelength : List ℚ
  ages : List ℚ
  metallicities : List ℚ

/-- `LHGridSpectra` minus the external synthesis: `lam` and `lnu` stand for
`grid.lam` and `spec.lnu`, `ages`/`mets` for `samples[:, 0]` / `samples[:, 1]`;
the function performs the wavelength filtering and returns the tuple. -/
def LHGridSpectra (lam : List ℚ) (lnu : List (List ℚ)) (ages mets : List ℚ) : GridSample :=
  { spectra := lnu.map (filterRow lam)
    wavelength := filteredWavelength lam
    ages := ages
    metallicities := mets }

/-!  ## grids.py : SpectralDatasetSynthesizer -/

/-- The attributes a `SpectralDatasetSynthesizer` instance carries after
`__init__`. -/
structure SpectralDatasetSynthesizer where
  spectra : List (List ℚ)
  wavelength : List ℚ
  ages : List ℚ
  metallicities : List ℚ
  conditions : List (ℚ × ℚ)
  n_wavelength : ℕ
  spec_mean : List ℚ
  spec_std : List ℚ
  age_mean : ℚ
  age_std : ℚ
  met_mean : ℚ
  met_std : ℚ

/-- Elementwise `(row - mean) / std` for one spectrum row against the
per-wavelength mean and std vectors (numpy broadcasting of
`(self.spectra - self.spec_mean) / self.spec_std` restricted to one row). -/
def normRow : List ℚ → List ℚ → List ℚ → List ℚ
  | x :: xs, m :: ms, s :: ss => ((x - m) / s) :: normRow xs ms ss
  | _, _, _ => []

/-- Column `j` of a list of rows (numpy axis-0 view at index `j`). -/
def column (rows : List (List ℚ)) (j : ℕ) : List ℚ := rows.map (fun r => r.getD j 0)

/-- The `parent_dataset is None` branch of `SpectralDatasetSynthesizer.__init__`:
from the `LHGridSpectra` output it stores the raw arrays, computes the six
normalization statistics, normalizes parameters into `conditions` and
normalizes the log spectra.  `log10` and `sq` stand for `jnp.log10` and the
square root inside numpy's `std`.  (`reshape(-1, n_wavelength)` is the
identity on the row-per-sample representation.) -/
def mkFresh (log10 sq : ℚ → ℚ) (g : GridSample) : SpectralDatasetSynthesizer :=
  let nW := (g.spectra.headD []).length
  let age_mean := listMean g.ages
  let age_std := sq (listVar g.ages)
  let met_mean := listMean g.metallicities
  let met_std := sq (listVar g.metallicities)
  let norm_ages := g.ages.map (fun a => (a - age_mean) / age_std)
  let norm_mets := g.metallicities.map (fun m => (m - met_mean) / met_std)
  let logSpectra := g.spectra.map (fun r => r.map log10)
  let spec_mean := (List.range nW).map (fun j => listMean (column logSpectra j))
  let spec_std := (List.range nW).map (fun j => sq (listVar (column logSpectra j)))
  { spectra := logSpectra.map (fun r => normRow r spec_mean spec_std)
    wavelength := g.wavelength
    ages := g.ages
    metallicities := g.metallicities
    conditions := norm_ages.zip norm_mets
    n_wavelength := nW
    spec_mean := spec_mean
    spec_std := spec_std
    age_mean := age_mean
    age_std := age_std
    met_mean := met_mean
    met_std := met_std }

/-- numpy integer-array indexing `xs[idx]`: gather the listed positions. -/
def indexSelect {α : Type} (xs : List α) (idx : List ℕ) (d : α) : List α :=
  idx.map (fun i => xs.getD i d)

/-- The `if split is not None` tail of `__init__`: restrict the four data
arrays to the split indices; every other attribute is untouched. -/
def applySplit (d : SpectralDatasetSynthesizer) (split : Option (List ℕ)) :
    SpectralDatasetSynthesizer :=
  match split with
  | none => d
  | some idx =>
    { d with
      spectra := indexSelect d.spectra idx []
      ages := indexSelect d.ages idx 0
      metallicities := indexSelect d.metallicities idx 0
      conditions := indexSelect d.conditions idx (0, 0) }

/-- `SpectralDatasetSynthesizer.__init__`: with a parent, inherit every
attribute (the `parent_dataset is not None` branch copies all of them);
otherwise build afresh from the grid sample; finally apply the split. -/
def SpectralDatasetSynthesizer.init (log10 sq : ℚ → ℚ) (g : GridSample)
    (parent : Option SpectralDatasetSynthesizer) (split : Option (List ℕ)) :
    SpectralDatasetSynthesizer :=
  applySplit
    (match parent with
     | some p => p
     | none => mkFresh log10 sq g)
    split

/-- `unnormalize_spectrum`: `(spectrum * self.spec_std) + self.spec_mean`,
elementwise against the stored vectors.  (The source's `10**(...)` variant
is commented out: no exponentiation is applied.) -/
def SpectralDatasetSynthesizer.unnormalize_spectrum
    (d : SpectralDatasetSynthesizer) (spectrum : List ℚ) : List ℚ :=
  List.zipWith (· + ·) (List.zipWith (· * ·) spectrum d.spec_std) d.spec_mean

/-- `unnormalize_age`: `(norm_age * self.age_std) + self.age_mean`. -/
def SpectralDatasetSynthesizer.unnormalize_age
    (d : SpectralDatasetSynthesizer) (norm_age : ℚ) : ℚ :=
  norm_age * d.age_std + d.age_mean

/-- `unnormalize_metallicity`: `(norm_met * self.met_std) + self.met_mean`. -/
def SpectralDatasetSynthesizer.unnormalize_metallicity
    (d : SpectralDatasetSynthesizer) (norm_met : ℚ) : ℚ :=
  norm_met * d.met_std + d.met_mean

/-- `__len__`: `len(self.conditions)`. -/
def SpectralDatasetSynthesizer.len (d : SpectralDatasetSynthesizer) : ℕ :=
  d.conditions.length

/-!  ## autoencoder.py : losses and the optax transform chain

`train_step`'s loss and `create_train_state`'s optimizer chain.  The neural
network itself is external to the claims: `pred` stands for the network
output on the batch, flattened to one list (jnp.mean over a 2-D array is
the mean over all entries). -/

/-- Sum of squares of a flat parameter/gradient vector. -/
def sumSq (l : List ℚ) : ℚ := (l.map (fun x => x ^ 2)).sum

/-- `l2_loss = 0.5 * sum(jnp.sum(jnp.square(p)) for p in tree_leaves(params))`
over the flattened parameter vector. -/
def l2_loss (params : List ℚ) : ℚ := (1 / 2) * sumSq params

/-- `reconstruction_loss = jnp.mean((pred_spectrum - spectrum) ** 2)`. -/
def reconstruction_loss (pred target : List ℚ) : ℚ :=
  listMean (List.zipWith (fun a b => (a - b) ^ 2) pred target)

/-- The loss of `train_step`:
`loss = reconstruction_loss + 1e-4 * l2_loss`. -/
def train_step_loss (params pred target : List ℚ) : ℚ :=
  reconstruction_loss pred target + (1 / 10000) * l2_loss params

/-- `optax.clip_by_global_norm(maxNorm)` on a flat gradient vector:
the global norm is `sq (sum of squares)`; if it is `< maxNorm` the
gradients pass unchanged, otherwise they are scaled by `maxNorm / norm`. -/
def clip_by_global_norm (sq : ℚ → ℚ) (maxNorm : ℚ) (g : List ℚ) : List ℚ :=
  let n := sq (sumSq g)
  if n < maxNorm then g else g.map (fun x => x * (maxNorm / n))

/-- `optax.chain ts` applies the transforms in order. -/
def optaxChain (ts : List (List ℚ → List ℚ)) (g : List ℚ) : List ℚ :=
  ts.foldl (fun u t => t u) g

/-- The optimizer of `create_train_state`:
`optax.chain(optax.clip_by_global_norm(1.0), optax.adamw(...))`; the adamw
update itself is opaque to the claims and passed as a function. -/
def create_train_state_tx (sq : ℚ → ℚ) (adamw : List ℚ → List ℚ) :
    List ℚ → List ℚ :=
  optaxChain [clip_by_global_norm sq 1, adamw]

/-!  ## autoencoder.py : batch construction -/

/-- The batches of `train_epoch`: `perms = permutation(rng, n)` truncated to
`steps_per_epoch * batch_size` then reshaped to `(steps_per_epoch, batch_size)`
— row `i` is the slice `perm[i*b : i*b + b]`. -/
def train_epoch_perms (perm : List ℕ) (b : ℕ) : List (List ℕ) :=
  (List.range (perm.length / b)).map (fun i => (perm.drop (i * b)).take b)

/-- The batches fed to `eval_step` by `eval_model`:
`test_ds.spectra[i*b : (i+1)*b]` for `i < len(test_ds) // b`
(n is `len(test_ds)`, i.e. `d.len`). -/
def eval_batches (spectra : List (List ℚ)) (n b : ℕ) : List (List (List ℚ)) :=
  (List.range (n / b)).map (fun i => (spectra.drop (i * b)).take b)

/-- `eval_model`: the mean of the per-batch `eval_step` losses; the network
evaluation inside `eval_step` is opaque and passed as `stepLoss`. -/
def eval_model (stepLoss : List (List ℚ) → ℚ) (d : SpectralDatasetSynthesizer)
    (b : ℕ) : ℚ :=
  listMean ((eval_batches d.spectra d.len b).map stepLoss)

/-!  ## autoencoder.py : the epoch loop of train_and_evaluate

The loop's control flow over the sequence of per-epoch test losses.
An epoch's test loss is produced by training + `eval_model`; the control
decisions of `train_and_evaluate` depend on the losses alone, so the
embedding takes the per-epoch test-loss sequence as input (`num_epochs`
is its length).  `best = none` models the initial `float('inf')`. -/

structure TrainCfg where
  patience : ℕ
  minDelta : ℚ
  lrPatience : ℕ
  lrFactor : ℚ
  minLr : ℚ

structure LoopState where
  best : Option ℚ
  bestEpoch : ℕ
  noImprove : ℕ
  currentLr : ℚ
  lrNoImprove : ℕ
  checkpoints : List ℕ
  epochsRun : ℕ

/-- `test_loss < best_test_loss - min_delta` (always true against `inf`). -/
def improvesB (best : Option ℚ) (δ l : ℚ) : Bool :=
  match best with
  | none => true
  | some b => decide (l < b - δ)

/-- The `if lr_no_improve_epochs >= lr_patience` block: compute
`new_lr = max(current_lr * lr_factor, min_lr)`; only when it differs from
the current rate is the rate updated and the counter reset. -/
def reduceLr (cfg : TrainCfg) (s : LoopState) : LoopState :=
  if cfg.lrPatience ≤ s.lrNoImprove then
    let newLr := max (s.currentLr * cfg.lrFactor) cfg.minLr
    if newLr ≠ s.currentLr then { s with currentLr := newLr, lrNoImprove := 0 } else s
  else s

/-- One iteration of the `for epoch in range(num_epochs)` body, given that
epoch's test loss `l`; returns the updated state and whether the
`no_improve_epochs >= patience` break fires. -/
def stepEpoch (cfg : TrainCfg) (s : LoopState) (epoch : ℕ) (l : ℚ) :
    LoopState × Bool :=
  let s' :=
    if improvesB s.best cfg.minDelta l then
      { s with best := some l, bestEpoch := epoch, noImprove := 0, lrNoImprove := 0,
               checkpoints := s.checkpoints ++ [epoch], epochsRun := s.epochsRun + 1 }
    else
      reduceLr cfg
        { s with noImprove := s.noImprove + 1, lrNoImprove := s.lrNoImprove + 1,
                 epochsRun := s.epochsRun + 1 }
  (s', decide (cfg.patience ≤ s'.noImprove))

/-- The epoch loop from state `s` at epoch index `epoch` over the remaining
losses, stopping early when the break fires. -/
def runLoopFrom (cfg : TrainCfg) (s : LoopState) (epoch : ℕ) :
    List ℚ → LoopState
  | [] => s
  | l :: rest =>
    let p := stepEpoch cfg s epoch l
    if p.2 then p.1 else runLoopFrom cfg p.1 (epoch + 1) rest

/-- The initial trackers of `train_and_evaluate`. -/
def initState (lr : ℚ) : LoopState :=
  { best := none, bestEpoch := 0, noImprove := 0, currentLr := lr,
    lrNoImprove := 0, checkpoints := [], epochsRun := 0 }

/-- The whole tracking loop of `train_and_evaluate` over the per-epoch
test-loss sequence. -/
def train_and_evaluate_loop (cfg : TrainCfg) (lr : ℚ) (losses : List ℚ) :
    LoopState :=
  runLoopFrom cfg (initState lr) 0 losses

/-- The sequence of `current_lr` values at the end of each executed epoch
(the learning rate the code tracks and prints). -/
def lrTraceFrom (cfg : TrainCfg) (s : LoopState) (epoch : ℕ) :
    List ℚ → List ℚ
  | [] => []
  | l :: rest =>
    let p := stepEpoch cfg s epoch l
    p.1.currentLr :: (if p.2 then [] else lrTraceFrom cfg p.1 (epoch + 1) rest)

/-- Per-epoch learning-rate trace of a whole run. -/
def lrTrace (cfg : TrainCfg) (lr : ℚ) (losses : List ℚ) : List ℚ :=
  lrTraceFrom cfg (initState lr) 0 losses

/-!  ## Concrete instances for counterexamples and witnesses -/

/-- A finite table agreeing with the real `log10` on the sample points 10
and 1000. -/
def cexLog10 (x : ℚ) : ℚ := if x = 10 then 1 else if x = 1000 then 3 else 0

/-- A finite table agreeing with the real square root on the point 1
(every variance used by the concrete dataset below equals 1). -/
def cexSqrt (x : ℚ) : ℚ := if x = 1 then 1 else 0

/-- A concrete grid sample: two samples, one retained wavelength bin,
raw spectra `[[10], [1000]]`, ages `[0, 2]`, metallicities `[0, 2]`. -/
def gEx : GridSample :=
  { spectra := [[10], [1000]], wavelength := [5000],
    ages := [0, 2], metallicities := [0, 2] }

/-- The fresh dataset built from `gEx` (every variance involved equals 1 and
every log10 argument is 10 or 1000, so `cexLog10`/`cexSqrt` agree with the
real functions on all points used). -/
def dsEx : SpectralDatasetSynthesizer := mkFresh cexLog10 cexSqrt gEx

/-- Configuration for the C2 counterexample: `patience = 1`, `min_delta = 1`. -/
def cfgC2 : TrainCfg :=
  { patience := 1, minDelta := 1, lrPatience := 3, lrFactor := 1 / 2, minLr := 0 }

/-- Configuration for the C5 counterexample: `min_lr = 1/10` above the
initial learning rate `1/100`; `lr_patience = 1`. -/
def cfgC5 : TrainCfg :=
  { patience := 5, minDelta := 0, lrPatience := 1, lrFactor := 1 / 2, minLr := 1 / 10 }

/-- Configuration for the C6 counterexample: `min_delta = 1`. -/
def cfgC6 : TrainCfg :=
  { patience := 5, minDelta := 1, lrPatience := 3, lrFactor := 1 / 2, minLr := 0 }

/-- A concrete loop state with a finite best loss, for witnesses. -/
def stC6 : LoopState :=
  { best := some 5, bestEpoch := 2, noImprove := 1, currentLr := 1 / 100,
    lrNoImprove := 1, checkpoints := [0, 2], epochsRun := 3 }

/-- Invariant tying a loop state to the list `done` of test losses of the
epochs already executed (starting from epoch 0): the epoch counter matches;
before any epoch the best is `inf` and nothing is checkpointed; afterwards
the best is the loss of the last checkpointed epoch and every executed
epoch's loss is at least `best - min_delta`. -/
def LoopInv (δ : ℚ) (done : List ℚ) (s : LoopState) : Prop :=
  s.epochsRun = done.length ∧
  (s.best = none → done = [] ∧ s.checkpoints = []) ∧
  (∀ b, s.best = some b →
    done[s.bestEpoch]? = some b ∧
    s.checkpoints.getLast? = some s.bestEpoch ∧
    s.bestEpoch < done.length ∧
    ∀ l ∈ done, b - δ ≤ l)

end GridEmu

namespace GridEmu

/-!  # Theorems -/

/-- Claim C1: a dataset constructed with a `parent_dataset` (a derived
split, with or without a `split` index list) has its six normalization
statistics exactly equal to the parent's: the constructor copies them from
the parent and the split step never touches them. -/
theorem C1_derived_split_inherits_stats (log10 sq : ℚ → ℚ) (g : GridSample)
    (p : SpectralDatasetSynthesizer) (split : Option (List ℕ)) :
    (SpectralDatasetSynthesizer.init log10 sq g (some p) split).spec_mean = p.spec_mean ∧
    (SpectralDatasetSynthesizer.init log10 sq g (some p) split).spec_std = p.spec_std ∧
    (SpectralDatasetSynthesizer.init log10 sq g (some p) split).age_mean = p.age_mean ∧
    (SpectralDatasetSynthesizer.init log10 sq g (some p) split).age_std = p.age_std ∧
    (SpectralDatasetSynthesizer.init log10 sq g (some p) split).met_mean = p.met_mean ∧
    (SpectralDatasetSynthesizer.init log10 sq g (some p) split).met_std = p.met_std := by
  cases split <;>
    simp [SpectralDatasetSynthesizer.init, applySplit]

/-- Claim C9: constructing a derived split restricts exactly the four data
arrays (`spectra`, `ages`, `metallicities`, `conditions`) to the split
indices, and leaves `wavelength`, `n_wavelength` and the six normalization
statistics unchanged from the parent.  The constructor is a pure function
of the parent in this embedding — the source writes only to `self`, never
to `parent_dataset`, so the parent is not mutated. -/
theorem C9_derived_split_frame (log10 sq : ℚ → ℚ) (g : GridSample)
    (p : SpectralDatasetSynthesizer) (idx : List ℕ) :
    (SpectralDatasetSynthesizer.init log10 sq g (some p) (some idx)).spectra =
      indexSelect p.spectra idx [] ∧
    (SpectralDatasetSynthesizer.init log10 sq g (some p) (some idx)).ages =
      indexSelect p.ages idx 0 ∧
    (SpectralDatasetSynthesizer.init log10 sq g (some p) (some idx)).metallicities =
      indexSelect p.metallicities idx 0 ∧
    (SpectralDatasetSynthesizer.init log10 sq g (some p) (some idx)).conditions =
      indexSelect p.conditions idx (0, 0) ∧
    (SpectralDatasetSynthesizer.init log10 sq g (some p) (some idx)).wavelength =
      p.wavelength ∧
    (SpectralDatasetSynthesizer.init log10 sq g (some p) (some idx)).n_wavelength =
      p.n_wavelength ∧
    (SpectralDatasetSynthesizer.init log10 sq g (some p) (some idx)).spec_mean = p.spec_mean ∧
    (SpectralDatasetSynthesizer.init log10 sq g (some p) (some idx)).spec_std = p.spec_std ∧
    (SpectralDatasetSynthesizer.init log10 sq g (some p) (some idx)).age_mean = p.age_mean ∧
    (SpectralDatasetSynthesizer.init log10 sq g (some p) (some idx)).age_std = p.age_std ∧
    (SpectralDatasetSynthesizer.init log10 sq g (some p) (some idx)).met_mean = p.met_mean ∧
    (SpectralDatasetSynthesizer.init log10 sq g (some p) (some idx)).met_std = p.met_std := by
  simp [SpectralDatasetSynthesizer.init, applySplit]

/-- A slice `l[i*b : i*b + b]` of a list with at least `i*b + b` elements
has length exactly `b`. -/
theorem slice_length {α : Type} (l : List α) (b i : ℕ) (h : i * b + b ≤ l.length) :
    ((l.drop (i * b)).take b).length = b := by
  rw [List.length_take, List.length_drop]
  generalize i * b = m at h ⊢
  omega

/-- Indices below `n / b` address full slices of a length-`n` list. -/
theorem slice_full {α : Type} (l : List α) (n b i : ℕ) (hl : l.length = n)
    (hi : i < n / b) : i * b + b ≤ l.length := by
  have h1 : (i + 1) * b ≤ n / b * b :=
    Nat.mul_le_mul_right b (Nat.succ_le_of_lt hi)
  have h2 : n / b * b ≤ n := Nat.div_mul_le_self n b
  have h3 : i * b + b = (i + 1) * b := by ring
  rw [hl, h3]
  exact le_trans h1 h2

/-- Claim C4: in `train_epoch`, the batches are consecutive slices of one
permutation of all indices, so each batch has exactly `batch_size` pairwise
distinct indices, the epoch covers `n - n % batch_size` samples — dropping
exactly `n % batch_size` of them — and at most `batch_size - 1` samples are
dropped. -/
theorem C4_train_epoch_batches (perm : List ℕ) (n b : ℕ) (hb : 0 < b)
    (hperm : perm.Perm (List.range n)) :
    (∀ batch ∈ train_epoch_perms perm b, batch.length = b ∧ batch.Nodup) ∧
    ((train_epoch_perms perm b).map List.length).sum = n - n % b ∧
    n - ((train_epoch_perms perm b).map List.length).sum = n % b ∧
    n % b ≤ b - 1 := by
  have hlen : perm.length = n := by simpa using hperm.length_eq
  have hnd : perm.Nodup := hperm.nodup_iff.mpr (List.nodup_range n)
  have hblen : ∀ i, i < n / b → ((perm.drop (i * b)).take b).length = b :=
    fun i hi => slice_length perm b i (slice_full perm n b i hlen hi)
  have hdm : n / b * b + n % b = n := by
    rw [Nat.mul_comm]
    exact Nat.div_add_mod n b
  have hmlt : n % b < b := Nat.mod_lt n hb
  refine ⟨?_, ?_, ?_, by omega⟩
  · intro batch hbatch
    rw [train_epoch_perms, hlen] at hbatch
    simp only [List.mem_map, List.mem_range] at hbatch
    obtain ⟨i, hi, rfl⟩ := hbatch
    exact ⟨hblen i hi,
      hnd.sublist ((List.take_sublist _ _).trans (List.drop_sublist _ _))⟩
  · have hmap : (train_epoch_perms perm b).map List.length =
        (List.range (n / b)).map (fun _ => b) := by
      rw [train_epoch_perms, hlen, List.map_map]
      apply List.map_congr_left
      intro i hi
      exact hblen i (List.mem_range.mp hi)
    rw [hmap]
    simp only [List.map_const', List.length_range, List.sum_replicate, smul_eq_mul]
    omega
  · have hmap : (train_epoch_perms perm b).map List.length =
        (List.range (n / b)).map (fun _ => b) := by
      rw [train_epoch_perms, hlen, List.map_map]
      apply List.map_congr_left
      intro i hi
      exact hblen i (List.mem_range.mp hi)
    rw [hmap]
    simp only [List.map_const', List.length_range, List.sum_replicate, smul_eq_mul]
    omega

/-- Witness for C4 at a concrete permutation of 5 indices and batch size 2. -/
theorem C4_train_epoch_batches_witness :
    0 < 2 ∧ ([2, 0, 1, 3, 4] : List ℕ).Perm (List.range 5) ∧
    ((∀ batch ∈ train_epoch_perms [2, 0, 1, 3, 4] 2, batch.length = 2 ∧ batch.Nodup) ∧
     ((train_epoch_perms [2, 0, 1, 3, 4] 2).map List.length).sum = 5 - 5 % 2 ∧
     5 - ((train_epoch_perms [2, 0, 1, 3, 4] 2).map List.length).sum = 5 % 2 ∧
     5 % 2 ≤ 2 - 1) :=
  ⟨by decide, by decide,
   C4_train_epoch_batches [2, 0, 1, 3, 4] 5 2 (by decide) (by decide)⟩

/-- Joining the `k` consecutive `b`-slices of a list recovers its first
`k * b` elements. -/
theorem join_slices {α : Type} (b : ℕ) :
    ∀ (k : ℕ) (l : List α), k * b ≤ l.length →
      ((List.range k).map (fun i => (l.drop (i * b)).take b)).flatten = l.take (k * b) := by
  intro k
  induction k with
  | zero => simp
  | succ k ih =>
    intro l hkb
    have hk : k * b ≤ l.length :=
      le_trans (Nat.mul_le_mul_right b (Nat.le_succ k)) hkb
    rw [List.range_succ, List.map_append, List.flatten_append, ih l hk]
    simp only [List.map_cons, List.map_nil, List.flatten_cons, List.flatten_nil,
      List.append_nil]
    rw [Nat.succ_mul, List.take_add]

/-- Claim C10: `eval_model` averages the per-batch losses of exactly the
first `len(test_ds) / batch_size` full consecutive batches of the test
spectra; the joined batches are the first `steps * b` samples, so the
`n % b ≤ b - 1` remainder samples never contribute, and the result is the
mean (sum over number of batches) of the per-batch losses. -/
theorem C10_eval_model (stepLoss : List (List ℚ) → ℚ)
    (d : SpectralDatasetSynthesizer) (b : ℕ) (hb : 0 < b)
    (hlen : d.spectra.length = d.len) :
    (eval_batches d.spectra d.len b).length = d.len / b ∧
    (∀ batch ∈ eval_batches d.spectra d.len b, batch.length = b) ∧
    (eval_batches d.spectra d.len b).flatten = d.spectra.take (d.len / b * b) ∧
    d.spectra.length - d.len / b * b = d.spectra.length % b ∧
    d.spectra.length % b ≤ b - 1 ∧
    eval_model stepLoss d b =
      ((eval_batches d.spectra d.len b).map stepLoss).sum / ((d.len / b : ℕ) : ℚ) := by
  have hdm : d.len / b * b + d.len % b = d.len := by
    rw [Nat.mul_comm]
    exact Nat.div_add_mod d.len b
  have hmlt : d.len % b < b := Nat.mod_lt d.len hb
  have h4 : d.spectra.length - d.len / b * b = d.spectra.length % b := by
    rw [hlen]
    omega
  have h5 : d.spectra.length % b ≤ b - 1 := by
    rw [hlen]
    omega
  refine ⟨by simp [eval_batches], ?_, ?_, h4, h5, ?_⟩
  · intro batch hbatch
    simp only [eval_batches, List.mem_map, List.mem_range] at hbatch
    obtain ⟨i, hi, rfl⟩ := hbatch
    exact slice_length d.spectra b i (slice_full d.spectra d.len b i hlen hi)
  · have : d.len / b * b ≤ d.spectra.length := by omega
    exact join_slices b (d.len / b) d.spectra this
  · simp [eval_model, listMean, eval_batches]

/-- Witness for C10 on the concrete two-sample dataset with batch size 2. -/
theorem C10_eval_model_witness :
    0 < 2 ∧ dsEx.spectra.length = dsEx.len ∧
    ((eval_batches dsEx.spectra dsEx.len 2).length = dsEx.len / 2 ∧
     (∀ batch ∈ eval_batches dsEx.spectra dsEx.len 2, batch.length = 2) ∧
     (eval_batches dsEx.spectra dsEx.len 2).flatten = dsEx.spectra.take (dsEx.len / 2 * 2) ∧
     dsEx.spectra.length - dsEx.len / 2 * 2 = dsEx.spectra.length % 2 ∧
     dsEx.spectra.length % 2 ≤ 2 - 1 ∧
     eval_model (fun _ => 0) dsEx 2 =
       ((eval_batches dsEx.spectra dsEx.len 2).map (fun _ => 0)).sum /
         ((dsEx.len / 2 : ℕ) : ℚ)) :=
  ⟨by decide, by decide, C10_eval_model (fun _ => 0) dsEx 2 (by decide) (by decide)⟩

/-- `getD` of a mapped list at an in-range index is the function applied to
`getD` of the original list. -/
theorem getD_map {α β : Type} (f : α → β) (l : List α) (i : ℕ) (d : β) (dd : α)
    (hi : i < l.length) : (l.map f).getD i d = f (l.getD i dd) := by
  rw [List.getD_eq_getElem _ _ (by simpa), List.getD_eq_getElem _ _ hi,
    List.getElem_map]

/-- Un-normalizing a normalized row (`(row - mean) / std` elementwise)
recovers the row exactly, whenever the std entries are nonzero and the
mean/std vectors are at least as long as the row. -/
theorem unnorm_normRow :
    ∀ (row m s : List ℚ), row.length ≤ m.length → row.length ≤ s.length →
      (∀ x ∈ s, x ≠ 0) →
      List.zipWith (· + ·) (List.zipWith (· * ·) (normRow row m s) s) m = row := by
  intro row
  induction row with
  | nil => intro m s _ _ _; simp [normRow]
  | cons x xs ih =>
    intro m s hm hs hnz
    cases m with
    | nil => simp at hm
    | cons m0 ms =>
      cases s with
      | nil => simp at hs
      | cons s0 ss =>
        simp only [normRow, List.zipWith_cons_cons, List.cons.injEq]
        constructor
        · rw [div_mul_cancel₀ _ (hnz s0 (by simp))]
          ring
        · exact ih ms ss (by simpa using hm) (by simpa using hs)
            (fun x hx => hnz x (by simp [hx]))

/-- Scalar round trip of the parameter normalization. -/
theorem unnormalize_age_roundtrip (d : SpectralDatasetSynthesizer) (a : ℚ)
    (h : d.age_std ≠ 0) :
    d.unnormalize_age ((a - d.age_mean) / d.age_std) = a := by
  rw [SpectralDatasetSynthesizer.unnormalize_age, div_mul_cancel₀ _ h]
  ring

/-- Scalar round trip of the metallicity normalization. -/
theorem unnormalize_met_roundtrip (d : SpectralDatasetSynthesizer) (a : ℚ)
    (h : d.met_std ≠ 0) :
    d.unnormalize_metallicity ((a - d.met_mean) / d.met_std) = a := by
  rw [SpectralDatasetSynthesizer.unnormalize_metallicity, div_mul_cancel₀ _ h]
  ring

/-- Claim C3 (amended): on a fresh dataset with nonzero normalization
standard deviations, applying the dataset's normalization and then the
corresponding inverse transform is exact over `ℚ`: `unnormalize_age` /
`unnormalize_metallicity` recover the raw age and metallicity from the
stored `conditions`, and `unnormalize_spectrum` recovers from a stored
normalized spectrum the pre-normalization **log10** spectrum
`(raw row).map log10` — not, as the original claim states, the physical
pre-log spectrum (the `10**` inversion is commented out in the source). -/
theorem C3_roundtrip_amended (log10 sq : ℚ → ℚ) (g : GridSample)
    (huni : ∀ r ∈ g.spectra, r.length = (g.spectra.headD []).length)
    (hmets : g.metallicities.length = g.ages.length)
    (hstd : ∀ x ∈ (mkFresh log10 sq g).spec_std, x ≠ 0)
    (hage : (mkFresh log10 sq g).age_std ≠ 0)
    (hmet : (mkFresh log10 sq g).met_std ≠ 0) :
    (∀ i, i < g.spectra.length →
      (mkFresh log10 sq g).unnormalize_spectrum
          ((mkFresh log10 sq g).spectra.getD i []) =
        (g.spectra.getD i []).map log10) ∧
    (∀ i, i < g.ages.length →
      (mkFresh log10 sq g).unnormalize_age
          (((mkFresh log10 sq g).conditions.getD i (0, 0)).1) =
        g.ages.getD i 0) ∧
    (∀ i, i < g.ages.length →
      (mkFresh log10 sq g).unnormalize_metallicity
          (((mkFresh log10 sq g).conditions.getD i (0, 0)).2) =
        g.metallicities.getD i 0) := by
  have hMlen : (mkFresh log10 sq g).spec_mean.length = (g.spectra.headD []).length := by
    simp [mkFresh]
  have hSlen : (mkFresh log10 sq g).spec_std.length = (g.spectra.headD []).length := by
    simp [mkFresh]
  have hspectra : (mkFresh log10 sq g).spectra =
      g.spectra.map (fun r => normRow (r.map log10)
        (mkFresh log10 sq g).spec_mean (mkFresh log10 sq g).spec_std) := by
    simp [mkFresh, List.map_map]
  have hconds : (mkFresh log10 sq g).conditions =
      (g.ages.map (fun a => (a - (mkFresh log10 sq g).age_mean) /
          (mkFresh log10 sq g).age_std)).zip
        (g.metallicities.map (fun m => (m - (mkFresh log10 sq g).met_mean) /
          (mkFresh log10 sq g).met_std)) := rfl
  have hzlen : ∀ i, i < g.ages.length → i < (mkFresh log10 sq g).conditions.length := by
    intro i hi
    rw [hconds, List.length_zip, List.length_map, List.length_map, hmets, min_self]
    exact hi
  refine ⟨?_, ?_, ?_⟩
  · intro i hi
    have hmem : g.spectra.getD i [] ∈ g.spectra := by
      rw [List.getD_eq_getElem _ _ hi]
      exact List.getElem_mem hi
    rw [hspectra, getD_map _ _ _ _ [] hi]
    apply unnorm_normRow
    · rw [List.length_map, hMlen]
      exact le_of_eq (huni _ hmem)
    · rw [List.length_map, hSlen]
      exact le_of_eq (huni _ hmem)
    · exact hstd
  · intro i hi
    have hi' : i < g.metallicities.length := by rw [hmets]; exact hi
    have h1 : (mkFresh log10 sq g).conditions[i]? =
        some ((g.ages.getD i 0 - (mkFresh log10 sq g).age_mean) /
            (mkFresh log10 sq g).age_std,
          (g.metallicities.getD i 0 - (mkFresh log10 sq g).met_mean) /
            (mkFresh log10 sq g).met_std) := by
      rw [hconds, List.getElem?_eq_getElem (by
        rw [List.length_zip, List.length_map, List.length_map, hmets, min_self]; exact hi)]
      rw [List.getElem_zip]
      simp [List.getElem_map, List.getD_eq_getElem?_getD, List.getElem?_eq_getElem hi,
        List.getElem?_eq_getElem hi']
    rw [List.getD_eq_getElem?_getD, h1]
    simp only [Option.getD_some]
    exact unnormalize_age_roundtrip _ _ hage
  · intro i hi
    have hi' : i < g.metallicities.length := by rw [hmets]; exact hi
    have h1 : (mkFresh log10 sq g).conditions[i]? =
        some ((g.ages.getD i 0 - (mkFresh log10 sq g).age_mean) /
            (mkFresh log10 sq g).age_std,
          (g.metallicities.getD i 0 - (mkFresh log10 sq g).met_mean) /
            (mkFresh log10 sq g).met_std) := by
      rw [hconds, List.getElem?_eq_getElem (by
        rw [List.length_zip, List.length_map, List.length_map, hmets, min_self]; exact hi)]
      rw [List.getElem_zip]
      simp [List.getElem_map, List.getD_eq_getElem?_getD, List.getElem?_eq_getElem hi,
        List.getElem?_eq_getElem hi']
    rw [List.getD_eq_getElem?_getD, h1]
    simp only [Option.getD_some]
    exact unnormalize_met_roundtrip _ _ hmet

/-- Counterexample to C3 as stated: on the concrete dataset `dsEx` (raw
first spectrum `[10]`), normalizing and then applying `unnormalize_spectrum`
yields `[1]` — the log10 of the raw spectrum (`cexLog10 10 = 1 = log10 10`)
— and not the physical pre-log value `[10]` the claim promises. -/
theorem C3_counterexample :
    gEx.spectra.getD 0 [] = [10] ∧
    cexLog10 10 = 1 ∧
    dsEx.unnormalize_spectrum (dsEx.spectra.getD 0 []) = [1] ∧
    ([1] : List ℚ) ≠ [10] := by
  refine ⟨by decide, by decide, ?_, by decide⟩
  norm_num [dsEx, gEx, mkFresh, cexLog10, cexSqrt, listMean, listVar, column, normRow,
    SpectralDatasetSynthesizer.unnormalize_spectrum, List.range_succ]

/-- Witness for the amended C3 on the concrete dataset `dsEx`: the
hypotheses hold and the round trips recover the log spectrum and the raw
age at index 0. -/
theorem C3_roundtrip_witness :
    (∀ r ∈ gEx.spectra, r.length = (gEx.spectra.headD []).length) ∧
    gEx.metallicities.length = gEx.ages.length ∧
    (∀ x ∈ (mkFresh cexLog10 cexSqrt gEx).spec_std, x ≠ 0) ∧
    (mkFresh cexLog10 cexSqrt gEx).age_std ≠ 0 ∧
    (mkFresh cexLog10 cexSqrt gEx).met_std ≠ 0 ∧
    (mkFresh cexLog10 cexSqrt gEx).unnormalize_spectrum
        ((mkFresh cexLog10 cexSqrt gEx).spectra.getD 0 []) =
      (gEx.spectra.getD 0 []).map cexLog10 ∧
    (mkFresh cexLog10 cexSqrt gEx).unnormalize_age
        (((mkFresh cexLog10 cexSqrt gEx).conditions.getD 0 (0, 0)).1) =
      gEx.ages.getD 0 0 ∧
    (mkFresh cexLog10 cexSqrt gEx).unnormalize_metallicity
        (((mkFresh cexLog10 cexSqrt gEx).conditions.getD 0 (0, 0)).2) =
      gEx.metallicities.getD 0 0 :=
  ⟨by decide, by decide,
   by norm_num [mkFresh, gEx, cexLog10, cexSqrt, listMean, listVar, column, List.range_succ],
   by norm_num [mkFresh, gEx, cexSqrt, listMean, listVar],
   by norm_num [mkFresh, gEx, cexSqrt, listMean, listVar],
   (C3_roundtrip_amended cexLog10 cexSqrt gEx (by decide) (by decide)
      (by norm_num [mkFresh, gEx, cexLog10, cexSqrt, listMean, listVar, column, List.range_succ])
      (by norm_num [mkFresh, gEx, cexSqrt, listMean, listVar])
      (by norm_num [mkFresh, gEx, cexSqrt, listMean, listVar])).1 0 (by decide),
   (C3_roundtrip_amended cexLog10 cexSqrt gEx (by decide) (by decide)
      (by norm_num [mkFresh, gEx, cexLog10, cexSqrt, listMean, listVar, column, List.range_succ])
      (by norm_num [mkFresh, gEx, cexSqrt, listMean, listVar])
      (by norm_num [mkFresh, gEx, cexSqrt, listMean, listVar])).2.1 0 (by decide),
   (C3_roundtrip_amended cexLog10 cexSqrt gEx (by decide) (by decide)
      (by norm_num [mkFresh, gEx, cexLog10, cexSqrt, listMean, listVar, column, List.range_succ])
      (by norm_num [mkFresh, gEx, cexSqrt, listMean, listVar])
      (by norm_num [mkFresh, gEx, cexSqrt, listMean, listVar])).2.2 0 (by decide)⟩

/-- Filtering a row by the wavelength mask keeps as many entries as the
mask keeps wavelengths, whenever row and wavelength array have the same
length. -/
theorem filterRow_length :
    ∀ (row lam : List ℚ), row.length = lam.length →
      (filterRow lam row).length = (filteredWavelength lam).length := by
  intro row
  induction row with
  | nil =>
    intro lam h
    have : lam = [] := by
      cases lam
      · rfl
      · simp at h
    subst this
    rfl
  | cons x xs ih =>
    intro lam h
    cases lam with
    | nil => simp at h
    | cons y ys =>
      have h' : xs.length = ys.length := by simpa using h
      have ih' := ih ys h'
      simp only [filterRow, filteredWavelength] at ih' ⊢
      by_cases hy : inWindow y = true
      · simp [List.zip_cons_cons, List.filter_cons, hy, ih']
      · simp [List.zip_cons_cons, List.filter_cons, hy, ih']

/-- Length of an elementwise-normalized row. -/
theorem normRow_length :
    ∀ (r m s : List ℚ), (normRow r m s).length = min r.length (min m.length s.length) := by
  intro r
  induction r with
  | nil => intro m s; cases m <;> cases s <;> simp [normRow]
  | cons x xs ih =>
    intro m s
    cases m with
    | nil => simp [normRow]
    | cons m0 ms =>
      cases s with
      | nil => simp [normRow]
      | cons s0 ss =>
        simp only [normRow, List.length_cons, ih]
        omega

/-- Claim C7: every wavelength kept by `LHGridSpectra` lies strictly inside
(1000, 10000), and — provided the synthesis returns one spectrum row per
sample, each on the full wavelength grid — the fresh dataset's reshaped
spectra array has shape `(N, n_wavelength)`: one row per sample, each of
length `n_wavelength`. -/
theorem C7_wavelength_window_and_shape (log10 sq : ℚ → ℚ) (lam : List ℚ)
    (lnu : List (List ℚ)) (ages mets : List ℚ)
    (hlen : ∀ r ∈ lnu, r.length = lam.length) :
    (∀ w ∈ (LHGridSpectra lam lnu ages mets).wavelength, 1000 < w ∧ w < 10000) ∧
    (mkFresh log10 sq (LHGridSpectra lam lnu ages mets)).spectra.length = lnu.length ∧
    (∀ r ∈ (mkFresh log10 sq (LHGridSpectra lam lnu ages mets)).spectra,
      r.length = (mkFresh log10 sq (LHGridSpectra lam lnu ages mets)).n_wavelength) := by
  refine ⟨?_, by simp [mkFresh, LHGridSpectra], ?_⟩
  · intro w hw
    have : inWindow w = true := by
      simp only [LHGridSpectra] at hw
      exact (List.mem_filter.mp hw).2
    simpa [inWindow] using this
  · intro r hr
    have hk : ∀ x ∈ lnu, (filterRow lam x).length = (filteredWavelength lam).length :=
      fun x hx => filterRow_length x lam (hlen x hx)
    cases lnu with
    | nil => simp [mkFresh, LHGridSpectra] at hr
    | cons r0 rest =>
      have hnW : (mkFresh log10 sq (LHGridSpectra lam (r0 :: rest) ages mets)).n_wavelength =
          (filteredWavelength lam).length := by
        simp only [mkFresh, LHGridSpectra, List.map_cons, List.headD_cons]
        exact hk r0 (by simp)
      have hMlen : (mkFresh log10 sq (LHGridSpectra lam (r0 :: rest) ages mets)).spec_mean.length =
          (mkFresh log10 sq (LHGridSpectra lam (r0 :: rest) ages mets)).n_wavelength := by
        simp [mkFresh]
      have hSlen : (mkFresh log10 sq (LHGridSpectra lam (r0 :: rest) ages mets)).spec_std.length =
          (mkFresh log10 sq (LHGridSpectra lam (r0 :: rest) ages mets)).n_wavelength := by
        simp [mkFresh]
      have hspectra : (mkFresh log10 sq (LHGridSpectra lam (r0 :: rest) ages mets)).spectra =
          ((r0 :: rest).map (filterRow lam)).map (fun x => normRow (x.map log10)
            (mkFresh log10 sq (LHGridSpectra lam (r0 :: rest) ages mets)).spec_mean
            (mkFresh log10 sq (LHGridSpectra lam (r0 :: rest) ages mets)).spec_std) := by
        simp [mkFresh, LHGridSpectra, List.map_map]
      rw [hspectra] at hr
      rw [List.mem_map] at hr
      obtain ⟨x, hx, rfl⟩ := hr
      rw [List.mem_map] at hx
      obtain ⟨x0, hx0, rfl⟩ := hx
      rw [normRow_length, List.length_map, hk x0 hx0, hMlen, hSlen, hnW]
      simp

/-- Witness for C7 on a concrete grid: wavelengths [500, 2000, 20000]
(only 2000 in window) and two three-bin sample spectra. -/
theorem C7_wavelength_window_and_shape_witness :
    (∀ r ∈ ([[1, 2, 3], [4, 5, 6]] : List (List ℚ)),
      r.length = ([500, 2000, 20000] : List ℚ).length) ∧
    ((∀ w ∈ (LHGridSpectra [500, 2000, 20000] [[1, 2, 3], [4, 5, 6]] [0] [0]).wavelength,
        1000 < w ∧ w < 10000) ∧
     (mkFresh (fun x => x) (fun x => x)
        (LHGridSpectra [500, 2000, 20000] [[1, 2, 3], [4, 5, 6]] [0] [0])).spectra.length =
       ([[1, 2, 3], [4, 5, 6]] : List (List ℚ)).length ∧
     (∀ r ∈ (mkFresh (fun x => x) (fun x => x)
          (LHGridSpectra [500, 2000, 20000] [[1, 2, 3], [4, 5, 6]] [0] [0])).spectra,
       r.length = (mkFresh (fun x => x) (fun x => x)
          (LHGridSpectra [500, 2000, 20000] [[1, 2, 3], [4, 5, 6]] [0] [0])).n_wavelength)) :=
  ⟨by decide,
   C7_wavelength_window_and_shape (fun x => x) (fun x => x) [500, 2000, 20000]
     [[1, 2, 3], [4, 5, 6]] [0] [0] (by decide)⟩

/-- The learning-rate reduction step does not change `best`. -/
theorem reduceLr_best (cfg : TrainCfg) (s : LoopState) :
    (reduceLr cfg s).best = s.best := by
  unfold reduceLr
  by_cases hp : cfg.lrPatience ≤ s.lrNoImprove
  · rw [if_pos hp]
    by_cases hne : max (s.currentLr * cfg.lrFactor) cfg.minLr ≠ s.currentLr
    · rw [if_pos hne]
    · rw [if_neg hne]
  · rw [if_neg hp]

/-- The learning-rate reduction step does not change `bestEpoch`. -/
theorem reduceLr_bestEpoch (cfg : TrainCfg) (s : LoopState) :
    (reduceLr cfg s).bestEpoch = s.bestEpoch := by
  unfold reduceLr
  by_cases hp : cfg.lrPatience ≤ s.lrNoImprove
  · rw [if_pos hp]
    by_cases hne : max (s.currentLr * cfg.lrFactor) cfg.minLr ≠ s.currentLr
    · rw [if_pos hne]
    · rw [if_neg hne]
  · rw [if_neg hp]

/-- The learning-rate reduction step does not change `noImprove`. -/
theorem reduceLr_noImprove (cfg : TrainCfg) (s : LoopState) :
    (reduceLr cfg s).noImprove = s.noImprove := by
  unfold reduceLr
  by_cases hp : cfg.lrPatience ≤ s.lrNoImprove
  · rw [if_pos hp]
    by_cases hne : max (s.currentLr * cfg.lrFactor) cfg.minLr ≠ s.currentLr
    · rw [if_pos hne]
    · rw [if_neg hne]
  · rw [if_neg hp]

/-- The learning-rate reduction step does not change `checkpoints`. -/
theorem reduceLr_checkpoints (cfg : TrainCfg) (s : LoopState) :
    (reduceLr cfg s).checkpoints = s.checkpoints := by
  unfold reduceLr
  by_cases hp : cfg.lrPatience ≤ s.lrNoImprove
  · rw [if_pos hp]
    by_cases hne : max (s.currentLr * cfg.lrFactor) cfg.minLr ≠ s.currentLr
    · rw [if_pos hne]
    · rw [if_neg hne]
  · rw [if_neg hp]

/-- The learning-rate reduction step does not change `epochsRun`. -/
theorem reduceLr_epochsRun (cfg : TrainCfg) (s : LoopState) :
    (reduceLr cfg s).epochsRun = s.epochsRun := by
  unfold reduceLr
  by_cases hp : cfg.lrPatience ≤ s.lrNoImprove
  · rw [if_pos hp]
    by_cases hne : max (s.currentLr * cfg.lrFactor) cfg.minLr ≠ s.currentLr
    · rw [if_pos hne]
    · rw [if_neg hne]
  · rw [if_neg hp]

/-- The reduction step never raises the rate and never drops it below the
floor, provided `lr_factor ≤ 1`, `0 ≤ min_lr` and the rate starts at or
above the floor. -/
theorem reduceLr_bounds (cfg : TrainCfg) (s : LoopState) (h1 : cfg.lrFactor ≤ 1)
    (h2 : 0 ≤ cfg.minLr) (h3 : cfg.minLr ≤ s.currentLr) :
    (reduceLr cfg s).currentLr ≤ s.currentLr ∧
    cfg.minLr ≤ (reduceLr cfg s).currentLr := by
  have h0 : 0 ≤ s.currentLr := le_trans h2 h3
  have hb1 : max (s.currentLr * cfg.lrFactor) cfg.minLr ≤ s.currentLr := by
    apply max_le _ h3
    calc s.currentLr * cfg.lrFactor ≤ s.currentLr * 1 :=
          mul_le_mul_of_nonneg_left h1 h0
      _ = s.currentLr := mul_one _
  unfold reduceLr
  by_cases hp : cfg.lrPatience ≤ s.lrNoImprove
  · rw [if_pos hp]
    by_cases hne : max (s.currentLr * cfg.lrFactor) cfg.minLr ≠ s.currentLr
    · rw [if_pos hne]
      exact ⟨hb1, le_max_right _ _⟩
    · rw [if_neg hne]
      exact ⟨le_refl _, h3⟩
  · rw [if_neg hp]
    exact ⟨le_refl _, h3⟩

/-- One epoch of the loop never raises the learning rate and never drops it
below the floor (hypotheses as in `reduceLr_bounds`). -/
theorem stepEpoch_lr_bounds (cfg : TrainCfg) (s : LoopState) (e : ℕ) (l : ℚ)
    (h1 : cfg.lrFactor ≤ 1) (h2 : 0 ≤ cfg.minLr) (h3 : cfg.minLr ≤ s.currentLr) :
    (stepEpoch cfg s e l).1.currentLr ≤ s.currentLr ∧
    cfg.minLr ≤ (stepEpoch cfg s e l).1.currentLr := by
  unfold stepEpoch
  by_cases himp : improvesB s.best cfg.minDelta l = true
  · rw [if_pos himp]
    exact ⟨le_refl _, h3⟩
  · rw [if_neg himp]
    exact reduceLr_bounds cfg _ h1 h2 h3

/-- Along any run suffix, the per-epoch learning-rate trace is
non-increasing and stays at or above the floor. -/
theorem lrTraceFrom_bounds (cfg : TrainCfg) (h1 : cfg.lrFactor ≤ 1)
    (h2 : 0 ≤ cfg.minLr) :
    ∀ (rest : List ℚ) (s : LoopState) (e : ℕ), cfg.minLr ≤ s.currentLr →
      List.Chain' (fun a b => b ≤ a) (s.currentLr :: lrTraceFrom cfg s e rest) ∧
      ∀ x ∈ lrTraceFrom cfg s e rest, cfg.minLr ≤ x := by
  intro rest
  induction rest with
  | nil => intro s e _; simp [lrTraceFrom]
  | cons l rest ih =>
    intro s e h3
    have hstep := stepEpoch_lr_bounds cfg s e l h1 h2 h3
    simp only [lrTraceFrom]
    by_cases hbrk : (stepEpoch cfg s e l).2 = true
    · rw [if_pos hbrk]
      refine ⟨?_, ?_⟩
      · rw [List.chain'_cons]
        exact ⟨hstep.1, List.chain'_singleton _⟩
      · intro x hx
        simp only [List.mem_singleton] at hx
        subst hx
        exact hstep.2
    · rw [if_neg hbrk]
      have ih' := ih (stepEpoch cfg s e l).1 (e + 1) hstep.2
      refine ⟨?_, ?_⟩
      · rw [List.chain'_cons]
        exact ⟨hstep.1, ih'.1⟩
      · intro x hx
        rcases List.mem_cons.mp hx with rfl | hx'
        · exact hstep.2
        · exact ih'.2 x hx'

/-- Claim C5 (amended): provided `lr_factor ≤ 1` and the floor satisfies
`0 ≤ min_lr ≤ initial learning rate`, the tracked learning rate is
non-increasing from epoch to epoch across a run and never drops below
`min_lr` (each reduction sets it to `max(current_lr * lr_factor, min_lr)`).
Without `min_lr ≤ initial lr` the first reduction *raises* the rate to the
floor — see the counterexample. -/
theorem C5_lr_monotone_amended (cfg : TrainCfg) (lr : ℚ) (losses : List ℚ)
    (h1 : cfg.lrFactor ≤ 1) (h2 : 0 ≤ cfg.minLr) (h3 : cfg.minLr ≤ lr) :
    List.Chain' (fun a b => b ≤ a) (lr :: lrTrace cfg lr losses) ∧
    ∀ x ∈ lr :: lrTrace cfg lr losses, cfg.minLr ≤ x := by
  have h := lrTraceFrom_bounds cfg h1 h2 losses (initState lr) 0 h3
  refine ⟨h.1, ?_⟩
  intro x hx
  rcases List.mem_cons.mp hx with rfl | hx'
  · exact h3
  · exact h.2 x hx'

/-- Witness for the amended C5: a concrete run under `cfgC2`
(`lr_factor = 1/2`, `min_lr = 0 ≤ 1`). -/
theorem C5_lr_monotone_witness :
    cfgC2.lrFactor ≤ 1 ∧ (0 : ℚ) ≤ cfgC2.minLr ∧ cfgC2.minLr ≤ 1 ∧
    (List.Chain' (fun a b => b ≤ a) (1 :: lrTrace cfgC2 1 [1, 2]) ∧
     ∀ x ∈ (1 : ℚ) :: lrTrace cfgC2 1 [1, 2], cfgC2.minLr ≤ x) :=
  ⟨by norm_num [cfgC2], by norm_num [cfgC2], by norm_num [cfgC2],
   C5_lr_monotone_amended cfgC2 1 [1, 2] (by norm_num [cfgC2])
     (by norm_num [cfgC2]) (by norm_num [cfgC2])⟩

/-- Counterexample to C5 as stated: with floor `min_lr = 1/10` above the
initial rate `1/100`, the first reduction raises the tracked rate from
`1/100` to `1/10`, so the trace is not non-increasing. -/
theorem C5_counterexample :
    cfgC5.minLr = 1 / 10 ∧ (1 : ℚ) / 100 < cfgC5.minLr ∧
    lrTrace cfgC5 (1 / 100) [1, 1] = [1 / 100, 1 / 10] ∧
    ¬ List.Chain' (fun a b => b ≤ a) ((1 : ℚ) / 100 :: lrTrace cfgC5 (1 / 100) [1, 1]) := by
  have htr : lrTrace cfgC5 (1 / 100) [1, 1] = [1 / 100, 1 / 10] := by
    norm_num [lrTrace, lrTraceFrom, stepEpoch, improvesB, reduceLr, initState, cfgC5]
  refine ⟨rfl, by norm_num [cfgC5], htr, ?_⟩
  rw [htr]
  simp only [List.chain'_cons, List.chain'_singleton, and_true]
  norm_num

/-- One epoch preserves the loop invariant (for nonnegative `min_delta`):
executing the epoch with loss `l` extends the processed-loss list by `l`. -/
theorem stepEpoch_inv (cfg : TrainCfg) (hδ : 0 ≤ cfg.minDelta) (done : List ℚ)
    (s : LoopState) (l : ℚ) (h : LoopInv cfg.minDelta done s) :
    LoopInv cfg.minDelta (done ++ [l]) (stepEpoch cfg s done.length l).1 := by
  obtain ⟨hrun, hnone, hsome⟩ := h
  unfold stepEpoch
  cases hb : s.best with
  | none =>
    obtain ⟨hd, hc⟩ := hnone hb
    subst hd
    rw [if_pos (by simp [improvesB, hb])]
    refine ⟨by simpa using hrun, by simp, ?_⟩
    intro b' hb'
    simp only [Option.some.injEq] at hb'
    subst hb'
    refine ⟨by simp, by simp [hc], by simp, ?_⟩
    intro x hx
    simp only [List.nil_append, List.mem_singleton] at hx
    subst hx
    exact sub_le_self _ hδ
  | some b =>
    obtain ⟨hget, hlast, hlt, hall⟩ := hsome b hb
    by_cases himp : l < b - cfg.minDelta
    · rw [if_pos (by simp [improvesB, hb, himp])]
      refine ⟨by simpa using hrun, by simp, ?_⟩
      intro b' hb'
      simp only [Option.some.injEq] at hb'
      subst hb'
      refine ⟨by simp, by simp, by simp, ?_⟩
      intro x hx
      rcases List.mem_append.mp hx with hx' | hx'
      · have h1 := hall x hx'
        linarith
      · simp only [List.mem_singleton] at hx'
        subst hx'
        exact sub_le_self _ hδ
    · rw [if_neg (by simp [improvesB, hb, himp])]
      refine ⟨?_, ?_, ?_⟩
      · simp only [reduceLr_epochsRun, List.length_append, List.length_singleton]
        simpa using hrun
      · intro hbad
        simp only [reduceLr_best] at hbad
        simp at hbad
      · intro b' hb'
        simp only [reduceLr_best] at hb'
        simp only [Option.some.injEq] at hb'
        subst hb'
        simp only [reduceLr_bestEpoch, reduceLr_checkpoints]
        refine ⟨?_, hlast, ?_, ?_⟩
        · rw [List.getElem?_append_left hlt]
          exact hget
        · simp only [List.length_append, List.length_singleton]
          omega
        · intro x hx
          rcases List.mem_append.mp hx with hx' | hx'
          · exact hall x hx'
          · simp only [List.mem_singleton] at hx'
            subst hx'
            linarith [le_of_not_lt himp]

/-- Running the loop from an invariant state splits the remaining losses
into a processed prefix `p` (nonempty when any loss remains) and an
unprocessed suffix `q`, and the final state satisfies the invariant for
the processed losses. -/
theorem runLoopFrom_inv (cfg : TrainCfg) (hδ : 0 ≤ cfg.minDelta) :
    ∀ (rest done : List ℚ) (s : LoopState), LoopInv cfg.minDelta done s →
      ∃ p q, rest = p ++ q ∧ (rest ≠ [] → p ≠ []) ∧
        LoopInv cfg.minDelta (done ++ p) (runLoopFrom cfg s done.length rest) := by
  intro rest
  induction rest with
  | nil =>
    intro done s h
    exact ⟨[], [], by simp, by simp, by simpa using h⟩
  | cons l rest ih =>
    intro done s h
    have h1 := stepEpoch_inv cfg hδ done s l h
    simp only [runLoopFrom]
    by_cases hbrk : (stepEpoch cfg s done.length l).2 = true
    · rw [if_pos hbrk]
      exact ⟨[l], rest, by simp, by simp, h1⟩
    · rw [if_neg hbrk]
      have h2 := ih (done ++ [l]) (stepEpoch cfg s done.length l).1
        (by simpa using h1)
      rw [List.length_append, List.length_singleton] at h2
      obtain ⟨p, q, hpq, _, hinv⟩ := h2
      refine ⟨l :: p, q, by simp [hpq], by simp, ?_⟩
      rw [show done ++ l :: p = (done ++ [l]) ++ p by simp]
      exact hinv

/-- Claim C2 (amended): whenever at least one epoch runs and
`min_delta ≥ 0`, the loop ends with a finite best test loss `b`; the last
checkpoint written is the epoch that achieved `b`; and every epoch that
ran has test loss at least `b - min_delta` — so the persisted checkpoint's
loss is within `min_delta` of the minimum observed test loss, but (because
improvement is only registered when it exceeds `min_delta`) need not equal
the minimum itself: see the counterexample. -/
theorem C2_checkpoint_amended (cfg : TrainCfg) (lr : ℚ) (losses : List ℚ)
    (hδ : 0 ≤ cfg.minDelta) (hne : losses ≠ []) :
    ∃ b, (train_and_evaluate_loop cfg lr losses).best = some b ∧
      (train_and_evaluate_loop cfg lr losses).checkpoints.getLast? =
        some (train_and_evaluate_loop cfg lr losses).bestEpoch ∧
      losses[(train_and_evaluate_loop cfg lr losses).bestEpoch]? = some b ∧
      ∀ l ∈ losses.take (train_and_evaluate_loop cfg lr losses).epochsRun,
        b - cfg.minDelta ≤ l := by
  have hinit : LoopInv cfg.minDelta [] (initState lr) := by
    refine ⟨rfl, fun _ => ⟨rfl, rfl⟩, ?_⟩
    intro b hb
    cases hb
  obtain ⟨p, q, hpq, hpne, hinv⟩ :=
    runLoopFrom_inv cfg hδ losses [] (initState lr) hinit
  have hp : p ≠ [] := hpne hne
  have hloop : runLoopFrom cfg (initState lr) ([] : List ℚ).length losses =
      train_and_evaluate_loop cfg lr losses := rfl
  rw [hloop] at hinv
  simp only [List.nil_append] at hinv
  obtain ⟨hrun, hnone, hsome⟩ := hinv
  set s := train_and_evaluate_loop cfg lr losses with hs
  have hbs : ∃ b, s.best = some b := by
    cases hb : s.best with
    | none => exact absurd (hnone hb).1 hp
    | some b => exact ⟨b, rfl⟩
  obtain ⟨b, hb⟩ := hbs
  obtain ⟨hget, hlast, hlt, hall⟩ := hsome b hb
  refine ⟨b, hb, hlast, ?_, ?_⟩
  · rw [hpq, List.getElem?_append_left hlt]
    exact hget
  · rw [hrun, hpq, List.take_left]
    exact hall

/-- Counterexample to C2 as stated: with `min_delta = 1` and test losses
`[10, 19/2]`, early stopping triggers after epoch 1, the only checkpoint is
epoch 0 (loss 10), yet epoch 1 — which ran — has strictly smaller loss
`19/2`; the persisted checkpoint is not an epoch achieving the minimum
observed test loss. -/
theorem C2_counterexample :
    cfgC2.patience ≤ (train_and_evaluate_loop cfgC2 1 [10, 19 / 2]).noImprove ∧
    (train_and_evaluate_loop cfgC2 1 [10, 19 / 2]).checkpoints = [0] ∧
    (train_and_evaluate_loop cfgC2 1 [10, 19 / 2]).epochsRun = 2 ∧
    ([10, 19 / 2] : List ℚ).getD 0 0 = 10 ∧
    ((19 : ℚ) / 2) ∈ ([10, 19 / 2] : List ℚ).take 2 ∧
    (19 : ℚ) / 2 < 10 := by
  refine ⟨?_, ?_, ?_, by norm_num, by norm_num, by norm_num⟩ <;>
    norm_num [train_and_evaluate_loop, runLoopFrom, stepEpoch, improvesB,
      reduceLr, initState, cfgC2]

/-- Witness for the amended C2 on a concrete one-epoch run. -/
theorem C2_checkpoint_witness :
    (0 : ℚ) ≤ cfgC6.minDelta ∧ ([3] : List ℚ) ≠ [] ∧
    (∃ b, (train_and_evaluate_loop cfgC6 1 [3]).best = some b ∧
      (train_and_evaluate_loop cfgC6 1 [3]).checkpoints.getLast? =
        some (train_and_evaluate_loop cfgC6 1 [3]).bestEpoch ∧
      ([3] : List ℚ)[(train_and_evaluate_loop cfgC6 1 [3]).bestEpoch]? = some b ∧
      ∀ l ∈ ([3] : List ℚ).take (train_and_evaluate_loop cfgC6 1 [3]).epochsRun,
        b - cfgC6.minDelta ≤ l) :=
  ⟨by norm_num [cfgC6], by simp,
   C2_checkpoint_amended cfgC6 1 [3] (by norm_num [cfgC6]) (by simp)⟩

/-- Claim C6 (amended): in an epoch with current best test loss `b` and
test loss `l`, the code counts the epoch as no improvement exactly when the
improvement `b - l` is **at most** `min_delta` (the claim's strict
`improvement < min_delta` is wrong at the boundary, see the counterexample);
after `lr_patience` consecutive no-improvement epochs the learning rate is
set to `max(current_lr * lr_factor, min_lr)`, with the lr counter resetting
exactly when this changes the rate; and the run breaks exactly when the
consecutive no-improvement count reaches `patience`. -/
theorem C6_no_improvement_amended (cfg : TrainCfg) (s : LoopState) (e : ℕ)
    (l b : ℚ) (hb : s.best = some b) :
    ((stepEpoch cfg s e l).1.noImprove = s.noImprove + 1 ↔ b - l ≤ cfg.minDelta) ∧
    ((stepEpoch cfg s e l).1.noImprove = 0 ↔ cfg.minDelta < b - l) ∧
    (b - l ≤ cfg.minDelta → cfg.lrPatience ≤ s.lrNoImprove + 1 →
      ((stepEpoch cfg s e l).1.currentLr = max (s.currentLr * cfg.lrFactor) cfg.minLr ∧
       (max (s.currentLr * cfg.lrFactor) cfg.minLr ≠ s.currentLr →
         (stepEpoch cfg s e l).1.lrNoImprove = 0) ∧
       (max (s.currentLr * cfg.lrFactor) cfg.minLr = s.currentLr →
         (stepEpoch cfg s e l).1.lrNoImprove = s.lrNoImprove + 1))) ∧
    ((stepEpoch cfg s e l).2 = true ↔
      cfg.patience ≤ (stepEpoch cfg s e l).1.noImprove) := by
  refine ⟨?_, ?_, ?_, by simp [stepEpoch]⟩
  · unfold stepEpoch
    by_cases himp : l < b - cfg.minDelta
    · rw [if_pos (by simp [improvesB, hb, himp])]
      simp only []
      constructor
      · intro h0
        omega
      · intro hle
        linarith
    · rw [if_neg (by simp [improvesB, hb, himp])]
      simp only [reduceLr_noImprove]
      constructor
      · intro _
        linarith [le_of_not_lt himp]
      · intro _
        trivial
  · unfold stepEpoch
    by_cases himp : l < b - cfg.minDelta
    · rw [if_pos (by simp [improvesB, hb, himp])]
      simp only []
      constructor
      · intro _
        linarith
      · intro _
        trivial
    · rw [if_neg (by simp [improvesB, hb, himp])]
      simp only [reduceLr_noImprove]
      constructor
      · intro h0
        omega
      · intro hlt
        linarith [le_of_not_lt himp]
  · intro hno hlrp
    have himp : ¬ l < b - cfg.minDelta := by
      intro h
      linarith
    unfold stepEpoch
    rw [if_neg (by simp [improvesB, hb, himp])]
    unfold reduceLr
    rw [if_pos (by simpa using hlrp)]
    by_cases hne : max (s.currentLr * cfg.lrFactor) cfg.minLr = s.currentLr
    · rw [if_neg (by simpa using hne)]
      exact ⟨by simp [hne], fun h => absurd hne h, fun _ => rfl⟩
    · rw [if_pos (by simpa using hne)]
      exact ⟨rfl, fun _ => rfl, fun h => absurd h hne⟩

/-- Counterexample to C6 as stated: with `min_delta = 1`, best loss 10 and
epoch loss 9 the improvement is exactly `min_delta`, not `< min_delta`, so
per the claim the epoch should count as an improvement — but the code
counts it as a no-improvement epoch (counter 1, no new checkpoint). -/
theorem C6_counterexample :
    cfgC6.minDelta = 1 ∧
    ¬ ((10 : ℚ) - 9 < cfgC6.minDelta) ∧
    (train_and_evaluate_loop cfgC6 1 [10, 9]).noImprove = 1 ∧
    (train_and_evaluate_loop cfgC6 1 [10, 9]).checkpoints = [0] := by
  refine ⟨rfl, by norm_num [cfgC6], ?_, ?_⟩ <;>
    norm_num [train_and_evaluate_loop, runLoopFrom, stepEpoch, improvesB,
      reduceLr, initState, cfgC6]

/-- Witness for the amended C6 at a concrete state (best loss 5) and
epoch loss 2. -/
theorem C6_no_improvement_witness :
    stC6.best = some 5 ∧
    (((stepEpoch cfgC6 stC6 3 2).1.noImprove = stC6.noImprove + 1 ↔
        (5 : ℚ) - 2 ≤ cfgC6.minDelta) ∧
     ((stepEpoch cfgC6 stC6 3 2).1.noImprove = 0 ↔ cfgC6.minDelta < (5 : ℚ) - 2) ∧
     ((5 : ℚ) - 2 ≤ cfgC6.minDelta → cfgC6.lrPatience ≤ stC6.lrNoImprove + 1 →
       ((stepEpoch cfgC6 stC6 3 2).1.currentLr =
          max (stC6.currentLr * cfgC6.lrFactor) cfgC6.minLr ∧
        (max (stC6.currentLr * cfgC6.lrFactor) cfgC6.minLr ≠ stC6.currentLr →
          (stepEpoch cfgC6 stC6 3 2).1.lrNoImprove = 0) ∧
        (max (stC6.currentLr * cfgC6.lrFactor) cfgC6.minLr = stC6.currentLr →
          (stepEpoch cfgC6 stC6 3 2).1.lrNoImprove = stC6.lrNoImprove + 1))) ∧
     ((stepEpoch cfgC6 stC6 3 2).2 = true ↔
       cfgC6.patience ≤ (stepEpoch cfgC6 stC6 3 2).1.noImprove)) :=
  ⟨rfl, C6_no_improvement_amended cfgC6 stC6 3 2 5 rfl⟩

/-- Scaling every entry of a vector scales its sum of squares by the square
of the factor. -/
theorem sumSq_map_mul (c : ℚ) :
    ∀ g : List ℚ, sumSq (g.map (fun x => x * c)) = c ^ 2 * sumSq g := by
  intro g
  induction g with
  | nil => simp [sumSq]
  | cons x xs ih =>
    simp only [sumSq, List.map_cons, List.sum_cons] at ih ⊢
    rw [ih]
    ring

/-- Claim C8: the `train_step` loss is the mean squared reconstruction
error plus `1e-4` times the L2 weight penalty (`0.5 * Σ‖p‖²`); the
optimizer chain of `create_train_state` feeds the gradients through
`clip_by_global_norm 1` **before** the adamw update; and the clipped
gradient vector has global norm at most 1 (stated on the squared norm,
with the square-root function characterized at the point used). -/
theorem C8_loss_and_clip (sq : ℚ → ℚ) (params pred target g : List ℚ)
    (adamw : List ℚ → List ℚ)
    (hs : sq (sumSq g) ^ 2 = sumSq g) (h0 : 0 ≤ sq (sumSq g)) :
    train_step_loss params pred target =
      listMean (List.zipWith (fun a b => (a - b) ^ 2) pred target) +
        (1 / 10000) * ((1 / 2) * sumSq params) ∧
    create_train_state_tx sq adamw g = adamw (clip_by_global_norm sq 1 g) ∧
    sumSq (clip_by_global_norm sq 1 g) ≤ 1 := by
  refine ⟨rfl, rfl, ?_⟩
  unfold clip_by_global_norm
  by_cases hlt : sq (sumSq g) < 1
  · rw [if_pos hlt]
    calc sumSq g = sq (sumSq g) ^ 2 := hs.symm
      _ ≤ 1 := by nlinarith
  · rw [if_neg hlt]
    have h1 : (1 : ℚ) ≤ sq (sumSq g) := le_of_not_lt hlt
    have hne : sq (sumSq g) ≠ 0 := by linarith
    rw [sumSq_map_mul]
    refine le_of_eq ?_
    calc (1 / sq (sumSq g)) ^ 2 * sumSq g
        = (1 / sq (sumSq g)) ^ 2 * sq (sumSq g) ^ 2 := by rw [hs]
      _ = ((1 / sq (sumSq g)) * sq (sumSq g)) ^ 2 := by ring
      _ = 1 := by rw [one_div_mul_cancel hne]; norm_num

/-- Witness for C8 at the gradient vector `[3/5, 4/5]` (sum of squares 1). -/
theorem C8_loss_and_clip_witness :
    cexSqrt (sumSq [3 / 5, 4 / 5]) ^ 2 = sumSq [3 / 5, 4 / 5] ∧
    (0 : ℚ) ≤ cexSqrt (sumSq [3 / 5, 4 / 5]) ∧
    (train_step_loss [1] [2] [0] =
       listMean (List.zipWith (fun a b => (a - b) ^ 2) [2] [0]) +
         (1 / 10000) * ((1 / 2) * sumSq [1]) ∧
     create_train_state_tx cexSqrt (fun x => x) [3 / 5, 4 / 5] =
       (fun x => x) (clip_by_global_norm cexSqrt 1 [3 / 5, 4 / 5]) ∧
     sumSq (clip_by_global_norm cexSqrt 1 [3 / 5, 4 / 5]) ≤ 1) :=
  ⟨by norm_num [sumSq, cexSqrt], by norm_num [sumSq, cexSqrt],
   C8_loss_and_clip cexSqrt [1] [2] [0] [3 / 5, 4 / 5] (fun x => x)
     (by norm_num [sumSq, cexSqrt]) (by norm_num [sumSq, cexSqrt])⟩

end GridEmu
